import Mathlib

/-
Verification of the overlay staged-edit engine of ankurah/react-forms
(src/index.tsx) against its natural-language specification.

The engine is shallowly embedded: JavaScript runtime values are modelled by
the inductive type JSValue, JS objects by association lists of string keys
(JS object keys are unique; theorems that quantify over association lists
add a Nodup hypothesis on the key list where the distinction matters),
object reference identity by a numeric id carried on each object, and the
React component state of EntityForm by the Session structure.  Numeric
index and length properties of boxed primitives (strings, arrays) are not
modelled; no verified property depends on them.
-/

-- =========================================================================
-- JavaScript value model
-- =========================================================================

/-- A JavaScript runtime value.  Objects carry a numeric reference id (two
structurally equal objects with different ids model distinct references)
together with their own enumerable string-keyed properties in insertion
order.  Arrays are opaque references here: the engine never reads their
elements, it only needs that Array.isArray distinguishes them from plain
objects.  vNaN is kept separate from vNum so that strict equality can be
non-reflexive on it, as in JS. -/
inductive JSValue where
  | vUndefined : JSValue
  | vNull : JSValue
  | vBool (b : Bool) : JSValue
  | vNum (n : Int) : JSValue
  | vNaN : JSValue
  | vStr (s : String) : JSValue
  | vArr (id : Nat) : JSValue
  | vObj (id : Nat) (fields : List (String × JSValue)) : JSValue

open JSValue

/-- JS loose comparison with null: value == null, true exactly for null and
undefined.  Used by the source in getNestedValue and by the nullish
coalescing operator. -/
def isNullish : JSValue → Bool
  | vNull => true
  | vUndefined => true
  | _ => false

/-- JS strict equality (the === operator): no coercion across kinds,
NaN === NaN is false, objects and arrays compare by reference. -/
def strictEq : JSValue → JSValue → Bool
  | vUndefined, vUndefined => true
  | vNull, vNull => true
  | vBool a, vBool b => a == b
  | vNum a, vNum b => a == b
  | vStr a, vStr b => a == b
  | vArr i, vArr j => i == j
  | vObj i _, vObj j _ => i == j
  | _, _ => false

-- =========================================================================
-- Association-list operations (JS object property access and assignment)
-- =========================================================================

/-- First binding of a key in an association list, if any. -/
def alLookup {α : Type} : List (String × α) → String → Option α
  | [], _ => none
  | kv :: rest, key => if kv.1 == key then some kv.2 else alLookup rest key

/-- Whether a key is bound (JS: key in obj). -/
def alHas {α : Type} (o : List (String × α)) (key : String) : Bool :=
  o.any (fun kv => kv.1 == key)

/-- JS delete obj[key]. -/
def alErase {α : Type} (o : List (String × α)) (key : String) : List (String × α) :=
  o.filter (fun kv => !(kv.1 == key))

/-- JS obj[key] = v: overwrites the existing binding in place, else appends
a new binding at the end, exactly the key-order behaviour of JS object
assignment and of spread-plus-assignment. -/
def alSet {α : Type} (o : List (String × α)) (key : String) (v : α) : List (String × α) :=
  if alHas o key then o.map (fun kv => if kv.1 == key then (key, v) else kv)
  else o ++ [(key, v)]

/-- JS property read obj[key] on an object: undefined when absent. -/
def lookupField (o : List (String × JSValue)) (key : String) : JSValue :=
  (alLookup o key).getD vUndefined

/-- JS property read on an arbitrary non-nullish value.  Primitives expose
no string-keyed own properties in this model. -/
def getProp : JSValue → String → JSValue
  | vObj _ fs, key => lookupField fs key
  | _, _ => vUndefined

-- =========================================================================
-- getNestedValue / setNestedValue / groupByRoot  (source lines 112-156)
-- =========================================================================

/-- JS String.prototype.split with separator ".": structural recursion over
the character list, so that it evaluates inside the kernel. -/
def splitDotChars : List Char → List String
  | [] => [""]
  | c :: rest =>
      let r := splitDotChars rest
      if c = '.' then "" :: r
      else
        match r with
        | [] => [String.mk [c]]
        | s :: tail => String.mk (c :: s.data) :: tail

/-- path.split of the source, specialised to the "." separator. -/
def splitDot (s : String) : List String := splitDotChars s.data

/-- JS optional-chained read obj?.[key]: undefined when obj is nullish,
otherwise a plain property read.  Never throws. -/
def jsIndexOpt (obj : JSValue) (key : String) : JSValue :=
  if isNullish obj then vUndefined else getProp obj key

/-- The loop of getNestedValue: for each segment, return undefined when the
current value compares loosely equal to null, else descend into the
property. -/
def walkParts : JSValue → List String → JSValue
  | cur, [] => cur
  | cur, k :: ks => if isNullish cur then vUndefined else walkParts (getProp cur k) ks

/-- getNestedValue (source lines 112-121): a dot-free path is a direct
optional-chained property read, a dotted path walks the segments with a
nullish guard before every raw access. -/
def getNestedValue (obj : JSValue) (path : String) : JSValue :=
  match splitDot path with
  | [_] => jsIndexOpt obj path
  | parts => walkParts obj parts

/-- Raw JS property access current[k], which throws a TypeError when the
base is nullish.  Used to state that getNestedValue never throws. -/
def getPropE (cur : JSValue) (k : String) : Except String JSValue :=
  if isNullish cur then Except.error "TypeError" else Except.ok (getProp cur k)

/-- The getNestedValue loop with the raw (throwing) access semantics: the
source guard (current == null) is checked before each raw access. -/
def walkPartsE : JSValue → List String → Except String JSValue
  | cur, [] => Except.ok cur
  | cur, k :: ks =>
      if isNullish cur then Except.ok vUndefined
      else
        match getPropE cur k with
        | Except.ok v => walkPartsE v ks
        | Except.error e => Except.error e

/-- getNestedValue under exception-aware access semantics. -/
def getNestedValueE (obj : JSValue) (path : String) : Except String JSValue :=
  match splitDot path with
  | [_] => Except.ok (jsIndexOpt obj path)
  | parts => walkPartsE obj parts

/-- setNestedValue (source lines 128-137) acting on the field list of the
target object: creates intermediate objects where the existing child is
nullish or absent.  When the existing child is a primitive the source
would throw on the subsequent property write (strict mode); that branch
keeps the list unchanged and is unreachable for the one-dot paths the
engine documents. -/
def setNestedFields : List (String × JSValue) → List String → JSValue → List (String × JSValue)
  | fs, [], _ => fs
  | fs, [last], v => alSet fs last v
  | fs, p :: rest, v =>
      match lookupField fs p with
      | vObj i cfs => alSet fs p (vObj i (setNestedFields cfs rest v))
      | vNull => alSet fs p (vObj 0 (setNestedFields [] rest v))
      | vUndefined => alSet fs p (vObj 0 (setNestedFields [] rest v))
      | other => alSet fs p other

/-- One iteration of the groupByRoot loop (source lines 144-156): a dot-free
key is copied through, a dotted key is written under its root via
setNestedValue into result[root] ?? a fresh empty object. -/
def groupStep (acc : List (String × JSValue)) (key : String) (value : JSValue) :
    List (String × JSValue) :=
  match splitDot key with
  | [_] => alSet acc key value
  | root :: rest =>
      match lookupField acc root with
      | vObj i fs => alSet acc root (vObj i (setNestedFields fs rest value))
      | vNull => alSet acc root (vObj 0 (setNestedFields [] rest value))
      | vUndefined => alSet acc root (vObj 0 (setNestedFields [] rest value))
      | other => alSet acc root other
  | [] => acc

/-- The overlay of staged edits: field path to staged value, in insertion
order, keys unique as in a JS object. -/
abbrev Overlay := List (String × JSValue)

/-- groupByRoot (source lines 144-156). -/
def groupByRoot (overlay : Overlay) : List (String × JSValue) :=
  overlay.foldl (fun acc kv => groupStep acc kv.1 kv.2) []

-- =========================================================================
-- EntityForm state and per-render derived values
-- =========================================================================

/-- Form mode prop: read-only, read-write, write-only. -/
inductive FormMode where
  | r : FormMode
  | rw : FormMode
  | w : FormMode

def FormMode.isRW : FormMode → Bool
  | FormMode.rw => true
  | _ => false

/-- The React state of one EntityForm instance that the verified claims
depend on: the mode prop, the bound view (viewProp ?? createdView, none in
create mode), the overlay, the save-error slot, the in-flight submit flag
and the internal isEditing flag of mode rw. -/
structure Session where
  modeProp : Option FormMode
  view : Option JSValue
  overlay : Overlay
  saveError : Option String
  isSubmitting : Bool
  isEditing : Bool

/-- isNew = !view (source line 432). -/
def isNewOf (s : Session) : Bool := s.view.isNone

/-- formMode = modeProp ?? (isNew ? w : rw) (source line 435). -/
def formModeOf (s : Session) : FormMode :=
  s.modeProp.getD (if s.view.isSome then FormMode.rw else FormMode.w)

/-- editing = formMode == w true : formMode == r false : isEditing
(source line 447). -/
def editingOf (s : Session) : Bool :=
  match formModeOf s with
  | FormMode.w => true
  | FormMode.r => false
  | FormMode.rw => s.isEditing

/-- stopEditing (source lines 468-473): only flips isEditing in mode rw
while editing. -/
def stopEditing (s : Session) : Session :=
  if (formModeOf s).isRW && s.isEditing then { s with isEditing := false } else s

/-- The wasCreating effect (source lines 450-457): when the previous render
was create mode and a view is now bound, stay in edit mode. -/
def wasCreatingEffect (wasNew : Bool) (s : Session) : Session :=
  if wasNew && !(isNewOf s) then { s with isEditing := true } else s

/-- The view reference as a JS value: null in create mode. -/
def viewOrNull : Option JSValue → JSValue
  | none => vNull
  | some v => v

-- =========================================================================
-- setOverlayValue (source lines 546-560)
-- =========================================================================

/-- The overlay update of setOverlayValue: a value strictly equal to the
current (possibly nested) view value removes the path from the overlay if
present, anything else stages it. -/
def setOverlayValueOv (view : Option JSValue) (o : Overlay) (name : String)
    (value : JSValue) : Overlay :=
  if strictEq value (getNestedValue (viewOrNull view) name) then
    if alHas o name then alErase o name else o
  else alSet o name value

/-- setOverlayValue at session level: updates the overlay and always clears
the save error. -/
def sessionSetOverlayValue (s : Session) (name : String) (value : JSValue) : Session :=
  { s with overlay := setOverlayValueOv s.view s.overlay name value, saveError := none }

-- =========================================================================
-- hasDirtyFields (source lines 565-573) and the Field dirty flag
-- =========================================================================

/-- hasDirtyFields: in create mode, some overlay value with value !== "";
in edit mode, some overlay value with value !== getNestedValue(view, key). -/
def hasDirtyFields (view : Option JSValue) (overlay : Overlay) : Bool :=
  match view with
  | none => overlay.any (fun kv => !(strictEq kv.2 (vStr "")))
  | some v => overlay.any (fun kv => !(strictEq kv.2 (getNestedValue v kv.1)))

/-- The per-field view value of the Field component (source line 810):
getNestedValue(view, name) ?? "". -/
def fieldViewValue (view : Option JSValue) (name : String) : JSValue :=
  let v := getNestedValue (viewOrNull view) name
  if isNullish v then vStr "" else v

/-- The per-field dirty flag of the Field component (source line 814):
name in overlay && overlay[name] !== viewValue. -/
def fieldDirty (view : Option JSValue) (o : Overlay) (name : String) : Bool :=
  alHas o name && !(strictEq (lookupField o name) (fieldViewValue view name))

/-- The Submit button disabled attribute (source line 1068):
!hasDirtyFields || isSubmitting. -/
def submitDisabled (hasDirty : Bool) (isSubmitting : Bool) : Bool :=
  !hasDirty || isSubmitting

-- =========================================================================
-- Reconciler: the view.subscribe callback (source lines 512-539)
-- =========================================================================

/-- One reconciliation sweep: delete every overlay entry whose current
(possibly nested) view value is strictly equal to the staged value.  The
source copies the map and deletes matching keys; on unique keys that is
exactly a filter.  (The changed ? next : prev return only tunes reference
identity, not content.) -/
def reconcile (view : JSValue) (o : Overlay) : Overlay :=
  o.filter (fun kv => !(strictEq (getNestedValue view kv.1) kv.2))

-- =========================================================================
-- handleSubmit (source lines 576-679)
-- =========================================================================

/-- Capabilities of one field of the mutation handle view.edit(trx):
whether mutable[root] is truthy, and whether it exposes replace / set
functions. -/
structure FieldCap where
  present : Bool
  hasReplace : Bool
  hasSet : Bool

/-- One observable step of the edit-mode submit loop: a mutation recorded on
the transaction, or a non-fatal console warning. -/
inductive SubmitAction where
  | applyReplace (root : String) (v : JSValue) : SubmitAction
  | applySet (root : String) (v : JSValue) : SubmitAction
  | applySetObj (root : String) (fields : List (String × JSValue)) : SubmitAction
  | warnEmbedded (root : String) : SubmitAction
  | warnUnknown (root : String) : SubmitAction

def SubmitAction.rootName : SubmitAction → String
  | SubmitAction.applyReplace r _ => r
  | SubmitAction.applySet r _ => r
  | SubmitAction.applySetObj r _ => r
  | SubmitAction.warnEmbedded r => r
  | SubmitAction.warnUnknown r => r

def SubmitAction.isMutation : SubmitAction → Bool
  | SubmitAction.applyReplace _ _ => true
  | SubmitAction.applySet _ _ => true
  | SubmitAction.applySetObj _ _ => true
  | _ => false

/-- Empty-string normalization: value === "" ? null : value. -/
def normEmpty (v : JSValue) : JSValue := if strictEq v (vStr "") then vNull else v

/-- The test typeof value === "object" && value !== null &&
!Array.isArray(value) selecting the embedded-struct branch. -/
def isEmbedded : JSValue → Bool
  | vObj _ _ => true
  | _ => false

/-- Own enumerable string-keyed properties seen by object spread.  Nullish
values never reach a spread in the source (guarded by ?? before it);
boxed primitives contribute no string-keyed fields in this model. -/
def spreadFields : JSValue → List (String × JSValue)
  | vObj _ fs => fs
  | _ => []

def objFields : JSValue → List (String × JSValue)
  | vObj _ fs => fs
  | _ => []

/-- Fold JS assignments acc[key] = f value over a list of entries. -/
def alSetFold {α : Type} (f : JSValue → α) (g : List (String × JSValue))
    (init : List (String × α)) : List (String × α) :=
  g.foldl (fun acc kv => alSet acc kv.1 (f kv.2)) init

/-- The merged object of the embedded-struct branch (source lines 600-606):
a shallow copy of existing = viewValue ?? followed by
merged[key] = val === "" ? null : val for every edited sub-field. -/
def mergeEmbedded (viewValue : JSValue) (subs : List (String × JSValue)) :
    List (String × JSValue) :=
  alSetFold normEmpty subs (spreadFields viewValue)

/-- The body of the edit-mode submit loop for one grouped root
(source lines 594-633). -/
def editActionsRoot (view : JSValue) (caps : String → FieldCap) (root : String)
    (value : JSValue) : List SubmitAction :=
  let viewValue := getProp view root
  if isEmbedded value then
    let merged := mergeEmbedded viewValue (objFields value)
    if (caps root).present && (caps root).hasSet then
      [SubmitAction.applySetObj root merged]
    else
      [SubmitAction.warnEmbedded root]
  else
    if strictEq value viewValue then []
    else if !(caps root).present then []
    else
      let normalizedValue := normEmpty value
      if (caps root).hasReplace then
        [SubmitAction.applyReplace root
          (if isNullish normalizedValue then vStr "" else normalizedValue)]
      else if (caps root).hasSet then
        [SubmitAction.applySet root normalizedValue]
      else
        [SubmitAction.warnUnknown root]

/-- The whole edit-mode submit loop over the grouped overlay, in entry
order. -/
def editActions (view : JSValue) (caps : String → FieldCap)
    (grouped : List (String × JSValue)) : List SubmitAction :=
  grouped.foldl (fun acc kv => acc ++ editActionsRoot view caps kv.1 kv.2) []

/-- A value inside the mapping handed to Model.create: either a value copied
or normalized as-is, or a freshly built normalized embedded object. -/
inductive DataVal where
  | val (v : JSValue) : DataVal
  | struct (fields : List (String × JSValue)) : DataVal

/-- The fresh normalized object built per embedded entry in create mode
(source lines 650-654). -/
def normFieldsFresh (fs : List (String × JSValue)) : List (String × JSValue) :=
  alSetFold normEmpty fs []

/-- Per grouped entry, the value stored into createData
(source lines 648-659). -/
def dataValOf : JSValue → DataVal
  | vObj _ fs => DataVal.struct (normFieldsFresh fs)
  | v => DataVal.val (normEmpty v)

/-- createData (source lines 644-659): spread of the supplied defaults,
then one assignment per grouped entry. -/
def createDataOf (defaults : List (String × JSValue))
    (grouped : List (String × JSValue)) : List (String × DataVal) :=
  alSetFold dataValOf grouped (defaults.map (fun kv => (kv.1, DataVal.val kv.2)))

/-- The environment a single submit runs against: the mutation handle
capabilities of view.edit(trx), the result of trx.commit() and the result
of Model.create (the new view, or a rejection message). -/
structure SubmitEnv where
  caps : String → FieldCap
  commitResult : Except String Unit
  createResult : Except String JSValue

/-- Everything observable about one handleSubmit run: the state left behind,
whether a transaction was begun, the actions recorded against the mutation
handle, and the mapping passed to Model.create if it was called. -/
structure SubmitOutcome where
  session : Session
  trxBegun : Bool
  actions : List SubmitAction
  createCall : Option (List (String × DataVal))

/-- handleSubmit (source lines 576-679), assuming initAnkurahForms was
called (getDeps does not throw).  Note the source contains no isSubmitting
guard: the flag is set, never consulted.  hasModel is the presence of the
model prop and defaults the defaultValues prop. -/
def handleSubmit (env : SubmitEnv) (hasModel : Bool)
    (defaults : List (String × JSValue)) (s : Session) : SubmitOutcome :=
  let s1 : Session := { s with isSubmitting := true, saveError := none }
  match s1.view with
  | some v =>
      let actions := editActions v env.caps (groupByRoot s1.overlay)
      match env.commitResult with
      | Except.ok _ =>
          let s2 := stopEditing { s1 with overlay := [] }
          { session := { s2 with isSubmitting := false },
            trxBegun := true, actions := actions, createCall := none }
      | Except.error msg =>
          { session := { s1 with saveError := some msg, isSubmitting := false },
            trxBegun := true, actions := actions, createCall := none }
  | none =>
      if hasModel then
        let d := createDataOf defaults (groupByRoot s1.overlay)
        match env.createResult with
        | Except.ok newView =>
            match env.commitResult with
            | Except.ok _ =>
                let s2 : Session :=
                  { s1 with view := some newView, overlay := [], isSubmitting := false }
                { session := s2,
                  trxBegun := true, actions := [], createCall := some d }
            | Except.error msg =>
                { session := { s1 with saveError := some msg, isSubmitting := false },
                  trxBegun := true, actions := [], createCall := some d }
        | Except.error msg =>
            { session := { s1 with saveError := some msg, isSubmitting := false },
              trxBegun := true, actions := [], createCall := some d }
      else
        { session := { s1 with isSubmitting := false },
          trxBegun := true, actions := [], createCall := none }

-- =========================================================================
-- Auxiliary definitions and concrete sessions used by the verification
-- =========================================================================

/-- The predicate selecting the mutations recorded against one root. -/
def mutOn (root : String) (a : SubmitAction) : Bool :=
  a.isMutation && (a.rootName == root)

/-- A session with a submit already in flight, used to exercise the submit
handler re-entrantly. -/
def busySession : Session :=
  { modeProp := none, view := some (vObj 0 [("email", vStr "a")]),
    overlay := [("email", vStr "b")], saveError := none,
    isSubmitting := true, isEditing := true }

/-- An environment whose mutation handle supports every operation and whose
commit succeeds. -/
def allCapsEnv : SubmitEnv :=
  { caps := fun _ => { present := true, hasReplace := true, hasSet := true },
    commitResult := Except.ok (), createResult := Except.error "unused" }

/-- An environment whose transaction commit rejects. -/
def failEnv : SubmitEnv :=
  { caps := fun _ => { present := true, hasReplace := true, hasSet := true },
    commitResult := Except.error "boom", createResult := Except.error "unused" }

/-- An edit-mode session with one staged field. -/
def editSession : Session :=
  { modeProp := none, view := some (vObj 0 [("email", vStr "a")]),
    overlay := [("email", vStr "b")], saveError := none,
    isSubmitting := false, isEditing := true }

/-- A create-mode session staging one name and one blank email. -/
def createSession : Session :=
  { modeProp := none, view := none,
    overlay := [("name", vStr "Carl"), ("email", vStr "")],
    saveError := none, isSubmitting := false, isEditing := true }

/-- An environment whose create call succeeds with a fresh view and whose
commit succeeds. -/
def createEnv : SubmitEnv :=
  { caps := fun _ => { present := true, hasReplace := true, hasSet := true },
    commitResult := Except.ok (), createResult := Except.ok (vObj 9 []) }

/-- An environment whose create call succeeds but whose commit rejects. -/
def createFailEnv : SubmitEnv :=
  { caps := fun _ => { present := true, hasReplace := true, hasSet := true },
    commitResult := Except.error "boom", createResult := Except.ok (vObj 9 []) }

/-- A view with an embedded address struct. -/
def addrView : JSValue :=
  vObj 0 [("address", vObj 1 [("street1", vStr "1 Main"), ("city", vStr "X")])]

/-- An edit-mode session staging one embedded sub-field of addrView. -/
def addrSession : Session :=
  { modeProp := none, view := some addrView,
    overlay := [("address.street1", vStr "2 Main")],
    saveError := none, isSubmitting := false, isEditing := true }

-- =========================================================================
-- Association-list lemmas
-- =========================================================================

theorem alLookup_eq_none {α : Type} (o : List (String × α)) (k : String)
    (h : alHas o k = false) : alLookup o k = none := by
  induction o with
  | nil => rfl
  | cons a o ih =>
      simp only [alHas, List.any_cons, Bool.or_eq_false_iff] at h
      have h1 : ¬ a.1 = k := by simpa using h.1
      simp [alLookup, h1, ih h.2]

theorem not_has_of_alLookup_none {α : Type} (o : List (String × α)) (k : String)
    (h : alLookup o k = none) : ∀ kv ∈ o, kv.1 ≠ k := by
  induction o with
  | nil => intro kv hkv; cases hkv
  | cons a o ih =>
      intro kv hkv
      by_cases hk : a.1 = k
      · simp [alLookup, hk] at h
      · rcases List.mem_cons.mp hkv with rfl | hkv'
        · exact hk
        · exact ih (by simpa [alLookup, hk] using h) kv hkv'

theorem alLookup_map_set {α : Type} (o : List (String × α)) (k : String) (v : α)
    (h : alHas o k = true) :
    alLookup (o.map (fun kv => if kv.1 == k then (k, v) else kv)) k = some v := by
  induction o with
  | nil => simp [alHas] at h
  | cons a o ih =>
      by_cases hk : a.1 = k
      · simp [alLookup, hk]
      · have h2 : alHas o k = true := by
          simp only [alHas, List.any_cons, Bool.or_eq_true] at h
          rcases h with h | h
          · exact absurd (by simpa using h) hk
          · simpa [alHas] using h
        have ih' := ih h2
        simp only [beq_iff_eq] at ih'
        simp [alLookup, hk, ih']

theorem alLookup_append_not_has {α : Type} (o tail : List (String × α)) (k : String)
    (h : alHas o k = false) : alLookup (o ++ tail) k = alLookup tail k := by
  induction o with
  | nil => rfl
  | cons a o ih =>
      simp only [alHas, List.any_cons, Bool.or_eq_false_iff] at h
      have h1 : ¬ a.1 = k := by simpa using h.1
      simp [alLookup, h1, ih h.2]

theorem alLookup_alSet_self {α : Type} (o : List (String × α)) (k : String) (v : α) :
    alLookup (alSet o k v) k = some v := by
  by_cases h : alHas o k = true
  · rw [alSet, if_pos h]
    exact alLookup_map_set o k v h
  · have h' : alHas o k = false := by simpa using h
    rw [alSet, if_neg (by simp [h']), alLookup_append_not_has o [(k, v)] k h']
    simp [alLookup]

theorem alLookup_append_cases {α : Type} (o tail : List (String × α)) (k' : String) :
    alLookup (o ++ tail) k' =
      match alLookup o k' with
      | some x => some x
      | none => alLookup tail k' := by
  induction o with
  | nil => rfl
  | cons a o ih => by_cases hk : a.1 = k' <;> simp [alLookup, hk, ih]

theorem alLookup_alSet_ne {α : Type} (o : List (String × α)) (k k' : String) (v : α)
    (h : k' ≠ k) : alLookup (alSet o k v) k' = alLookup o k' := by
  by_cases hh : alHas o k = true
  · rw [alSet, if_pos hh]
    clear hh
    induction o with
    | nil => rfl
    | cons a o ih =>
        have ih' := ih
        simp only [beq_iff_eq] at ih'
        by_cases hk : a.1 = k
        · simp [alLookup, hk, Ne.symm h, ih']
        · by_cases hk' : a.1 = k'
          · simp [alLookup, hk, hk', h]
          · simp [alLookup, hk, hk', ih']
  · have h' : alHas o k = false := by simpa using hh
    rw [alSet, if_neg (by simp [h']), alLookup_append_cases]
    cases hc : alLookup o k' with
    | some x => rfl
    | none => simp [alLookup, Ne.symm h]

theorem alHas_alErase {α : Type} (o : List (String × α)) (k : String) :
    alHas (alErase o k) k = false := by
  induction o with
  | nil => rfl
  | cons a o ih =>
      by_cases hk : a.1 = k
      · simp only [alErase, List.filter_cons, hk] at ih ⊢
        simpa using ih
      · simp only [alErase, List.filter_cons] at ih ⊢
        have hk' : (!(a.1 == k)) = true := by simp [hk]
        rw [hk', if_pos rfl]
        have hf : (a.1 == k) = false := by simp [hk]
        simp only [alHas, List.any_cons, hf, Bool.false_or]
        exact ih

theorem not_mem_keys_of_not_has {α : Type} (o : List (String × α)) (k : String)
    (h : alHas o k = false) : k ∉ o.map Prod.fst := by
  intro hmem
  rcases List.mem_map.mp hmem with ⟨kv, hkv, hfst⟩
  have hany : o.any (fun kv => kv.1 == k) = true :=
    List.any_eq_true.mpr ⟨kv, hkv, by simp [hfst]⟩
  rw [alHas] at h
  rw [h] at hany
  cases hany

theorem alSet_map_fst {α : Type} (o : List (String × α)) (k : String) (v : α) :
    (alSet o k v).map Prod.fst =
      if alHas o k then o.map Prod.fst else o.map Prod.fst ++ [k] := by
  by_cases h : alHas o k = true
  · rw [alSet, if_pos h, if_pos h, List.map_map]
    apply List.map_congr_left
    intro kv _
    by_cases hk : kv.1 = k
    · simp [Function.comp, hk]
    · simp [Function.comp, hk]
  · have h' : alHas o k = false := by simpa using h
    rw [alSet, if_neg (by simp [h']), if_neg (by simp [h'])]
    simp

theorem alSet_keys_nodup {α : Type} (o : List (String × α)) (k : String) (v : α)
    (h : (o.map Prod.fst).Nodup) : ((alSet o k v).map Prod.fst).Nodup := by
  rw [alSet_map_fst]
  by_cases hh : alHas o k = true
  · simpa [hh] using h
  · have h' : alHas o k = false := by simpa using hh
    simp only [h', Bool.false_eq_true, if_false]
    rw [List.nodup_append]
    refine ⟨h, List.nodup_singleton k, ?_⟩
    intro x hx hx'
    rcases List.mem_singleton.mp hx' with rfl
    exact not_mem_keys_of_not_has o x h' hx

theorem alSetFold_cons {α : Type} (f : JSValue → α) (a : String × JSValue)
    (g : List (String × JSValue)) (init : List (String × α)) :
    alSetFold f (a :: g) init = alSetFold f g (alSet init a.1 (f a.2)) := rfl

theorem alSetFold_lookup_notin {α : Type} (f : JSValue → α) (g : List (String × JSValue))
    (init : List (String × α)) (k : String) (h : ∀ kv ∈ g, kv.1 ≠ k) :
    alLookup (alSetFold f g init) k = alLookup init k := by
  induction g generalizing init with
  | nil => rfl
  | cons a g ih =>
      rw [alSetFold_cons, ih _ (fun kv hkv => h kv (List.mem_cons_of_mem a hkv))]
      exact alLookup_alSet_ne init a.1 k (f a.2) (Ne.symm (h a (List.mem_cons_self a g)))

theorem alSetFold_lookup_mem {α : Type} (f : JSValue → α) (g : List (String × JSValue))
    (init : List (String × α)) (k : String) (v : JSValue)
    (hnd : (g.map Prod.fst).Nodup) (hm : alLookup g k = some v) :
    alLookup (alSetFold f g init) k = some (f v) := by
  induction g generalizing init with
  | nil => simp [alLookup] at hm
  | cons a g ih =>
      rw [alSetFold_cons]
      rw [List.map_cons, List.nodup_cons] at hnd
      by_cases hk : a.1 = k
      · have hv : a.2 = v := by simpa [alLookup, hk] using hm
        subst hv
        have hnotin : ∀ kv ∈ g, kv.1 ≠ k := by
          intro kv hkv he
          exact hnd.1 (List.mem_map.mpr ⟨kv, hkv, he.trans hk.symm⟩)
        rw [alSetFold_lookup_notin f g _ k hnotin, hk]
        exact alLookup_alSet_self init k (f a.2)
      · have hm' : alLookup g k = some v := by simpa [alLookup, hk] using hm
        exact ih _ hnd.2 hm'

-- =========================================================================
-- groupByRoot and editActions structure lemmas
-- =========================================================================

theorem groupStep_keys_nodup (acc : List (String × JSValue)) (key : String)
    (value : JSValue) (h : (acc.map Prod.fst).Nodup) :
    ((groupStep acc key value).map Prod.fst).Nodup := by
  unfold groupStep
  split
  · exact alSet_keys_nodup _ _ _ h
  · split <;> exact alSet_keys_nodup _ _ _ h
  · exact h

theorem groupByRoot_keys_nodup (o : Overlay) : ((groupByRoot o).map Prod.fst).Nodup := by
  have main : ∀ acc : List (String × JSValue), (acc.map Prod.fst).Nodup →
      ((o.foldl (fun acc kv => groupStep acc kv.1 kv.2) acc).map Prod.fst).Nodup := by
    induction o with
    | nil => intro acc h; exact h
    | cons a o ih => intro acc h; exact ih _ (groupStep_keys_nodup acc a.1 a.2 h)
  exact main [] List.nodup_nil

theorem foldl_append_eq {α β : Type} (f : α → List β) (g : List α) (init : List β) :
    g.foldl (fun acc x => acc ++ f x) init = init ++ (g.map f).flatten := by
  induction g generalizing init with
  | nil => simp
  | cons a g ih => simp [ih, List.append_assoc]

theorem editActions_eq_flatten (view : JSValue) (caps : String → FieldCap)
    (g : List (String × JSValue)) :
    editActions view caps g =
      (g.map (fun kv => editActionsRoot view caps kv.1 kv.2)).flatten := by
  simpa using foldl_append_eq (fun kv => editActionsRoot view caps kv.1 kv.2) g []

theorem editActionsRoot_root (view : JSValue) (caps : String → FieldCap) (r : String)
    (v : JSValue) : ∀ a ∈ editActionsRoot view caps r v, a.rootName = r := by
  intro a ha
  simp only [editActionsRoot] at ha
  split at ha
  · split at ha
    · rcases List.mem_singleton.mp ha with rfl; rfl
    · rcases List.mem_singleton.mp ha with rfl; rfl
  · split at ha
    · cases ha
    · split at ha
      · cases ha
      · split at ha
        · rcases List.mem_singleton.mp ha with rfl; rfl
        · split at ha
          · rcases List.mem_singleton.mp ha with rfl; rfl
          · rcases List.mem_singleton.mp ha with rfl; rfl

theorem editActions_filter_unique (view : JSValue) (caps : String → FieldCap)
    (g : List (String × JSValue)) (root : String) (val : JSValue)
    (hnd : (g.map Prod.fst).Nodup) (hl : alLookup g root = some val) :
    (editActions view caps g).filter (mutOn root) =
      (editActionsRoot view caps root val).filter (mutOn root) := by
  rw [editActions_eq_flatten]
  induction g with
  | nil => simp [alLookup] at hl
  | cons a g ih =>
      rw [List.map_cons, List.flatten_cons, List.filter_append]
      rw [List.map_cons, List.nodup_cons] at hnd
      by_cases hk : a.1 = root
      · have hv : a.2 = val := by simpa [alLookup, hk] using hl
        subst hv
        have htail : ((g.map (fun kv => editActionsRoot view caps kv.1 kv.2)).flatten).filter
            (mutOn root) = [] := by
          rw [List.filter_eq_nil_iff]
          intro b hb
          rcases List.mem_flatten.mp hb with ⟨l, hl2, hbl⟩
          rcases List.mem_map.mp hl2 with ⟨kv, hkv, rfl⟩
          have hr := editActionsRoot_root view caps kv.1 kv.2 b hbl
          have hne : kv.1 ≠ root := by
            intro he
            exact hnd.1 (List.mem_map.mpr ⟨kv, hkv, he.trans hk.symm⟩)
          simp [mutOn, hr, hne]
        rw [htail, List.append_nil, hk]
      · have hl' : alLookup g root = some val := by simpa [alLookup, hk] using hl
        have hhead : (editActionsRoot view caps a.1 a.2).filter (mutOn root) = [] := by
          rw [List.filter_eq_nil_iff]
          intro b hb
          have hr := editActionsRoot_root view caps a.1 a.2 b hb
          simp [mutOn, hr, hk]
        rw [hhead, List.nil_append]
        exact ih hnd.2 hl'

-- =========================================================================
-- getNestedValue lemmas
-- =========================================================================

theorem walkParts_append (obj : JSValue) (pre post : List String) :
    walkParts obj (pre ++ post) = walkParts (walkParts obj pre) post := by
  induction pre generalizing obj with
  | nil => rfl
  | cons k ks ih =>
      by_cases h : isNullish obj = true
      · simp only [List.cons_append, walkParts, h, if_true]
        cases post with
        | nil => rfl
        | cons p ps => simp [walkParts, isNullish]
      · have h' : isNullish obj = false := by simpa using h
        simp only [List.cons_append, walkParts, h', Bool.false_eq_true, if_false]
        exact ih (getProp obj k)

theorem walkPartsE_ok (obj : JSValue) (parts : List String) :
    walkPartsE obj parts = Except.ok (walkParts obj parts) := by
  induction parts generalizing obj with
  | nil => rfl
  | cons k ks ih =>
      by_cases h : isNullish obj = true
      · simp [walkPartsE, walkParts, h]
      · have h' : isNullish obj = false := by simpa using h
        simp [walkPartsE, walkParts, getPropE, h', ih]

theorem getNestedValueE_ok (obj : JSValue) (path : String) :
    getNestedValueE obj path = Except.ok (getNestedValue obj path) := by
  unfold getNestedValueE getNestedValue
  cases hs : splitDot path with
  | nil => rfl
  | cons p ps =>
      cases ps with
      | nil => rfl
      | cons q qs => exact walkPartsE_ok obj (p :: q :: qs)

/-- C9: for every object and path, getNestedValue never throws (the raw
access semantics agree with the total function and return ok), a dot-free
path is a direct optional-chained property read, and whenever the walk
reaches a null or undefined value after a proper nonempty prefix of the
segments, the result is undefined. -/
theorem getNestedValue_safe_spec (obj : JSValue) (path : String) :
    getNestedValueE obj path = Except.ok (getNestedValue obj path) ∧
    (splitDot path = [path] → getNestedValue obj path = jsIndexOpt obj path) ∧
    (∀ pre post, splitDot path = pre ++ post → pre ≠ [] → post ≠ [] →
      isNullish (walkParts obj pre) = true → getNestedValue obj path = vUndefined) := by
  refine ⟨getNestedValueE_ok obj path, ?_, ?_⟩
  · intro h
    unfold getNestedValue
    rw [h]
  · intro pre post hsplit hpre hpost hnull
    unfold getNestedValue
    rcases pre with _ | ⟨a, pre'⟩
    · exact absurd rfl hpre
    rcases post with _ | ⟨b, post'⟩
    · exact absurd rfl hpost
    have hw : walkParts obj ((a :: pre') ++ (b :: post')) = vUndefined := by
      rw [walkParts_append]
      generalize walkParts obj (a :: pre') = X at hnull ⊢
      cases X <;> simp [walkParts, isNullish] at hnull ⊢
    rw [hsplit]
    rw [List.cons_append] at hw ⊢
    cases hls : pre' ++ b :: post' with
    | nil => simp at hls
    | cons c cs =>
        rw [hls] at hw
        exact hw

/-- C9 witness: a nested path whose intermediate value is null evaluates to
undefined without an exception. -/
theorem getNestedValue_safe_spec_witness :
    getNestedValue (vObj 0 [("address", vNull)]) "address.street1" = vUndefined ∧
    getNestedValueE (vObj 0 [("address", vNull)]) "address.street1" =
      Except.ok vUndefined := by
  have h := getNestedValue_safe_spec (vObj 0 [("address", vNull)]) "address.street1"
  have h3 := h.2.2 ["address"] ["street1"] (by decide) (by decide) (by decide) (by decide)
  exact ⟨h3, by rw [h.1, h3]⟩

/-- C3: one reconciliation sweep deletes exactly the overlay entries whose
current (possibly nested) view value is strictly equal to the staged
value; the result is a sublist of the overlay (no entry is added or
modified), and afterwards no remaining entry equals its view value. -/
theorem reconcile_spec (view : JSValue) (o : Overlay) :
    List.Sublist (reconcile view o) o ∧
    (∀ kv : String × JSValue, kv ∈ reconcile view o ↔
      kv ∈ o ∧ strictEq (getNestedValue view kv.1) kv.2 = false) := by
  constructor
  · exact List.filter_sublist o
  · intro kv
    simp [reconcile, List.mem_filter]

/-- C3 witness: an entry the view has caught up with is pruned, an entry
still differing survives unchanged. -/
theorem reconcile_spec_witness :
    ("email", vStr "x") ∈ reconcile (vObj 0 [("name", vStr "Bob")])
      [("name", vStr "Bob"), ("email", vStr "x")] ∧
    ("name", vStr "Bob") ∉ reconcile (vObj 0 [("name", vStr "Bob")])
      [("name", vStr "Bob"), ("email", vStr "x")] := by
  have h := reconcile_spec (vObj 0 [("name", vStr "Bob")])
      [("name", vStr "Bob"), ("email", vStr "x")]
  constructor
  · exact (h.2 _).mpr ⟨by simp, by decide⟩
  · intro hm
    have hv : strictEq (getNestedValue (vObj 0 [("name", vStr "Bob")]) "name")
        (vStr "Bob") = true := by decide
    rw [((h.2 _).mp hm).2] at hv
    cases hv

/-- C5: hasDirtyFields is true exactly when some overlay entry differs
strictly from its (possibly nested) view counterpart in edit mode, and
exactly when some overlay entry is not the empty string in create mode. -/
theorem hasDirtyFields_spec (view : JSValue) (o : Overlay) :
    (hasDirtyFields (some view) o = true ↔
      ∃ kv ∈ o, strictEq kv.2 (getNestedValue view kv.1) = false) ∧
    (hasDirtyFields none o = true ↔ ∃ kv ∈ o, strictEq kv.2 (vStr "") = false) := by
  constructor
  · simp [hasDirtyFields, List.any_eq_true]
  · simp [hasDirtyFields, List.any_eq_true]

/-- C5 witness: a differing staged value makes an edit-mode form dirty; a
blank staged value leaves a create-mode form clean. -/
theorem hasDirtyFields_spec_witness :
    hasDirtyFields (some (vObj 0 [("email", vStr "a")])) [("email", vStr "b")] = true ∧
    hasDirtyFields none [("name", vStr "")] = false := by
  have h := hasDirtyFields_spec (vObj 0 [("email", vStr "a")]) [("email", vStr "b")]
  exact ⟨(h.1).mpr ⟨("email", vStr "b"), by simp, by decide⟩, by decide⟩

/-- C4: setting a field to a value strictly equal to the current view value
removes the path from the overlay, and staging a value and then setting the
field back to the view value leaves the overlay empty, hasDirtyFields
false and the Submit button disabled. -/
theorem setOverlayValue_revert_spec (view : JSValue) (o : Overlay) (name : String)
    (v v2 : JSValue) (h2 : strictEq v2 (getNestedValue view name) = true) :
    alHas (setOverlayValueOv (some view) o name v2) name = false ∧
    setOverlayValueOv (some view) (setOverlayValueOv (some view) [] name v) name v2 = [] ∧
    hasDirtyFields (some view)
      (setOverlayValueOv (some view) (setOverlayValueOv (some view) [] name v) name v2) = false ∧
    (∀ b : Bool, submitDisabled
      (hasDirtyFields (some view)
        (setOverlayValueOv (some view) (setOverlayValueOv (some view) [] name v) name v2)) b
        = true) := by
  have hrm : ∀ o' : Overlay, alHas (setOverlayValueOv (some view) o' name v2) name = false := by
    intro o'
    rw [setOverlayValueOv]
    simp only [viewOrNull]
    rw [if_pos h2]
    by_cases hh : alHas o' name = true
    · rw [if_pos hh]
      exact alHas_alErase o' name
    · have hh' : alHas o' name = false := by simpa using hh
      rw [if_neg (by simp [hh'])]
      exact hh'
  have hempty : setOverlayValueOv (some view)
      (setOverlayValueOv (some view) [] name v) name v2 = [] := by
    by_cases hv : strictEq v (getNestedValue view name) = true
    · have hinner : setOverlayValueOv (some view) [] name v = [] := by
        simp [setOverlayValueOv, viewOrNull, hv, alHas]
      rw [hinner]
      simp [setOverlayValueOv, viewOrNull, h2, alHas]
    · have hv' : strictEq v (getNestedValue view name) = false := by simpa using hv
      have hinner : setOverlayValueOv (some view) [] name v = [(name, v)] := by
        simp [setOverlayValueOv, viewOrNull, hv', alSet, alHas]
      rw [hinner]
      simp [setOverlayValueOv, viewOrNull, h2, alHas, alErase, List.filter_cons]
  refine ⟨hrm o, hempty, ?_, ?_⟩
  · rw [hempty]
    rfl
  · intro b
    rw [hempty]
    cases b <;> rfl

/-- C4 witness: staging a new email and then reverting it to the view value
empties the overlay. -/
theorem setOverlayValue_revert_spec_witness :
    alHas (setOverlayValueOv (some (vObj 0 [("email", vStr "a@x.com")]))
      [("other", vNum 1)] "email" (vStr "a@x.com")) "email" = false ∧
    setOverlayValueOv (some (vObj 0 [("email", vStr "a@x.com")]))
      (setOverlayValueOv (some (vObj 0 [("email", vStr "a@x.com")])) [] "email"
        (vStr "b@x.com"))
      "email" (vStr "a@x.com") = [] := by
  have h := setOverlayValue_revert_spec (vObj 0 [("email", vStr "a@x.com")])
      [("other", vNum 1)] "email" (vStr "b@x.com") (vStr "a@x.com") (by decide)
  exact ⟨h.1, h.2.1⟩

/-- C10: every overlay-versus-view comparison is JS strict equality: a
staged object that is structurally equal but not reference-identical to
the view value is not pruned by the reconciler, is restaged rather than
removed by setOverlayValue, keeps hasDirtyFields true and keeps the
per-field dirty flag set; a staged NaN is likewise never pruned and stays
dirty even when the view holds NaN. -/
theorem strict_reference_equality_spec (i j : Nat) (fs : List (String × JSValue))
    (name : String) (rest : List (String × JSValue))
    (hij : i ≠ j) (hname : splitDot name = [name]) :
    reconcile (vObj 0 ((name, vObj i fs) :: rest)) [(name, vObj j fs)]
      = [(name, vObj j fs)] ∧
    setOverlayValueOv (some (vObj 0 ((name, vObj i fs) :: rest)))
      [(name, vObj j fs)] name (vObj j fs) = [(name, vObj j fs)] ∧
    hasDirtyFields (some (vObj 0 ((name, vObj i fs) :: rest))) [(name, vObj j fs)] = true ∧
    fieldDirty (some (vObj 0 ((name, vObj i fs) :: rest))) [(name, vObj j fs)] name = true ∧
    reconcile (vObj 0 [(name, vNaN)]) [(name, vNaN)] = [(name, vNaN)] ∧
    hasDirtyFields (some (vObj 0 [(name, vNaN)])) [(name, vNaN)] = true := by
  have hget : getNestedValue (vObj 0 ((name, vObj i fs) :: rest)) name = vObj i fs := by
    rw [getNestedValue, hname]
    simp [jsIndexOpt, isNullish, getProp, lookupField, alLookup]
  have hgetN : getNestedValue (vObj 0 [(name, vNaN)]) name = vNaN := by
    rw [getNestedValue, hname]
    simp [jsIndexOpt, isNullish, getProp, lookupField, alLookup]
  have hne : strictEq (vObj j fs) (vObj i fs) = false := by
    simp only [strictEq]
    simpa using Ne.symm hij
  have hne2 : strictEq (vObj i fs) (vObj j fs) = false := by
    simp only [strictEq]
    simpa using hij
  refine ⟨?_, ?_, ?_, ?_, ?_, ?_⟩
  · simp [reconcile, List.filter_cons, hget, hne2]
  · simp [setOverlayValueOv, viewOrNull, hget, hne, alSet, alHas]
  · simp [hasDirtyFields, hget, hne]
  · simp [fieldDirty, fieldViewValue, viewOrNull, hget, hne, alHas, lookupField,
      alLookup, isNullish]
  · simp [reconcile, List.filter_cons, hgetN, strictEq]
  · simp [hasDirtyFields, hgetN, strictEq]

/-- C10 witness: a structurally equal object with a different reference id,
and NaN, at a concrete field. -/
theorem strict_reference_equality_spec_witness :
    reconcile (vObj 0 [("addr", vObj 1 [("x", vStr "1")])])
      [("addr", vObj 2 [("x", vStr "1")])] = [("addr", vObj 2 [("x", vStr "1")])] ∧
    hasDirtyFields (some (vObj 0 [("addr", vNaN)])) [("addr", vNaN)] = true := by
  have h := strict_reference_equality_spec 1 2 [("x", vStr "1")] "addr" []
      (by decide) (by decide)
  exact ⟨h.1, h.2.2.2.2.2⟩

/-- C1 counterexample: a scalar overlay entry staging an empty string on a
field that differs from the view value and supports replace is applied via
replace with the empty string (normalizedValue coerced back by the
nullish-coalescing fallback), not with null as the claim states. -/
theorem submit_scalar_replace_counterexample :
    editActionsRoot (vObj 0 [("email", vStr "a@x.com")])
        (fun _ => { present := true, hasReplace := true, hasSet := true })
        "email" (vStr "") =
      [SubmitAction.applyReplace "email" (vStr "")] ∧
    [SubmitAction.applyReplace "email" (vStr "")] ≠
      [SubmitAction.applyReplace "email" vNull] := by
  constructor
  · rfl
  · intro h
    simp at h

/-- C1 amended: for a grouped scalar entry that differs strictly from the
live view value, an absent handle field is skipped silently; a field with a
replace function receives the normalized value with null and undefined
coerced back to the empty string; a field with only a set function receives
the normalized value (null for an empty string); a field with neither is
skipped with a diagnostic only; and the empty string does normalize to
null before the operation dispatch. -/
theorem submit_scalar_spec (view : JSValue) (caps : String → FieldCap) (root : String)
    (value : JSValue) (hscalar : isEmbedded value = false)
    (hdiff : strictEq value (getProp view root) = false) :
    ((caps root).present = false → editActionsRoot view caps root value = []) ∧
    ((caps root).present = true → (caps root).hasReplace = true →
      editActionsRoot view caps root value =
        [SubmitAction.applyReplace root
          (if isNullish (normEmpty value) then vStr "" else normEmpty value)]) ∧
    ((caps root).present = true → (caps root).hasReplace = false →
      (caps root).hasSet = true →
      editActionsRoot view caps root value =
        [SubmitAction.applySet root (normEmpty value)]) ∧
    ((caps root).present = true → (caps root).hasReplace = false →
      (caps root).hasSet = false →
      editActionsRoot view caps root value = [SubmitAction.warnUnknown root]) ∧
    (strictEq value (vStr "") = true → normEmpty value = vNull) := by
  refine ⟨?_, ?_, ?_, ?_, ?_⟩
  · intro hp
    simp [editActionsRoot, hscalar, hdiff, hp]
  · intro hp hr
    simp [editActionsRoot, hscalar, hdiff, hp, hr]
  · intro hp hr hs
    simp [editActionsRoot, hscalar, hdiff, hp, hr, hs]
  · intro hp hr hs
    simp [editActionsRoot, hscalar, hdiff, hp, hr, hs]
  · intro he
    simp [normEmpty, he]

/-- C1 witness: a differing scalar on a set-only field is applied via set
with the staged value. -/
theorem submit_scalar_spec_witness :
    editActionsRoot (vObj 0 [("name", vStr "Alice")])
        (fun _ => { present := true, hasReplace := false, hasSet := true })
        "name" (vStr "Bob") = [SubmitAction.applySet "name" (vStr "Bob")] := by
  have h := submit_scalar_spec (vObj 0 [("name", vStr "Alice")])
      (fun _ => { present := true, hasReplace := false, hasSet := true })
      "name" (vStr "Bob") (by decide) (by decide)
  have h3 := h.2.2.1 rfl rfl rfl
  rw [h3]
  rfl

/-- C2 counterexample: invoking the submit handler while a submit is
already in flight (isSubmitting true) still begins a transaction and still
records a mutation: the handler contains no in-flight guard. -/
theorem submit_reentrant_counterexample :
    busySession.isSubmitting = true ∧
    (handleSubmit allCapsEnv false [] busySession).trxBegun = true ∧
    (handleSubmit allCapsEnv false [] busySession).actions =
      [SubmitAction.applyReplace "email" (vStr "b")] := by
  refine ⟨rfl, rfl, ?_⟩
  rfl

/-- C2 amended: while a submit is in flight the Submit button is disabled,
which blocks re-entrant submission through the button; the submit handler
itself is not gated and, if invoked anyway, begins a new transaction. -/
theorem submit_inflight_button_spec (s : Session) (env : SubmitEnv) (hasModel : Bool)
    (defaults : List (String × JSValue)) (h : s.isSubmitting = true) :
    submitDisabled (hasDirtyFields s.view s.overlay) s.isSubmitting = true ∧
    (handleSubmit env hasModel defaults s).trxBegun = true := by
  constructor
  · rw [h]
    simp [submitDisabled]
  · cases hv : s.view with
    | some v => cases hc : env.commitResult <;> simp [handleSubmit, hv, hc]
    | none =>
        cases hasModel with
        | false => simp [handleSubmit, hv]
        | true =>
            cases hcr : env.createResult with
            | ok nv => cases hc : env.commitResult <;> simp [handleSubmit, hv, hcr, hc]
            | error m => simp [handleSubmit, hv, hcr]

/-- C2 amended witness: the in-flight session has a disabled Submit button
and a handler run that still opens a transaction. -/
theorem submit_inflight_button_spec_witness :
    submitDisabled (hasDirtyFields busySession.view busySession.overlay)
      busySession.isSubmitting = true ∧
    (handleSubmit allCapsEnv false [] busySession).trxBegun = true :=
  submit_inflight_button_spec busySession allCapsEnv false [] rfl

/-- C8: whenever the transaction commit rejects during a submit that
reaches the commit — an edit-mode submit, or a create-mode submit whose
create call resolved — the overlay is left unchanged, the in-flight flag
returns to false, the save-error slot holds the failure message, and any
subsequent setOverlayValue clears it. -/
theorem commit_failure_spec (s : Session) (env : SubmitEnv) (hasModel : Bool)
    (defaults : List (String × JSValue)) (msg : String)
    (hcommit : env.commitResult = Except.error msg)
    (hreach : (∃ v, s.view = some v) ∨
      (s.view = none ∧ hasModel = true ∧ ∃ nv, env.createResult = Except.ok nv)) :
    (handleSubmit env hasModel defaults s).session.overlay = s.overlay ∧
    (handleSubmit env hasModel defaults s).session.isSubmitting = false ∧
    (handleSubmit env hasModel defaults s).session.saveError = some msg ∧
    (∀ name value, (sessionSetOverlayValue
        (handleSubmit env hasModel defaults s).session name value).saveError = none) := by
  rcases hreach with ⟨v, hview⟩ | ⟨hview, hm, nv, hcr⟩
  · refine ⟨?_, ?_, ?_, ?_⟩ <;>
      simp [handleSubmit, hview, hcommit, sessionSetOverlayValue]
  · subst hm
    refine ⟨?_, ?_, ?_, ?_⟩ <;>
      simp [handleSubmit, hview, hcr, hcommit, sessionSetOverlayValue]

/-- C8 witness: a rejected commit in edit mode and a rejected commit after
a resolved create both preserve the staged edits, surface the message, and
the next edit clears it. -/
theorem commit_failure_spec_witness :
    (handleSubmit failEnv false [] editSession).session.overlay = [("email", vStr "b")] ∧
    (handleSubmit failEnv false [] editSession).session.isSubmitting = false ∧
    (handleSubmit failEnv false [] editSession).session.saveError = some "boom" ∧
    (sessionSetOverlayValue (handleSubmit failEnv false [] editSession).session
      "email" (vStr "c")).saveError = none ∧
    (handleSubmit createFailEnv true [] createSession).session.overlay =
      [("name", vStr "Carl"), ("email", vStr "")] ∧
    (handleSubmit createFailEnv true [] createSession).session.saveError = some "boom" ∧
    (handleSubmit createFailEnv true [] createSession).session.isSubmitting = false := by
  have h1 := commit_failure_spec editSession failEnv false [] "boom" rfl
      (Or.inl ⟨vObj 0 [("email", vStr "a")], rfl⟩)
  have h2 := commit_failure_spec createSession createFailEnv true [] "boom" rfl
      (Or.inr ⟨rfl, rfl, vObj 9 [], rfl⟩)
  exact ⟨h1.1, h1.2.1, h1.2.2.1, h1.2.2.2 "email" (vStr "c"), h2.1, h2.2.2.1, h2.2.1⟩

/-- C7: a successful create-mode submit calls the model create with the
grouped overlay, every empty string normalized to null, merged on top of
(never overridden by) the supplied defaults; the returned view becomes the
bound view, the overlay is cleared and the controller is in Editing after
the create-to-edit transition effect. -/
theorem create_submit_spec (s : Session) (env : SubmitEnv)
    (defaults : List (String × JSValue)) (newView : JSValue)
    (hview : s.view = none) (hmode : s.modeProp ≠ some FormMode.r)
    (hcreate : env.createResult = Except.ok newView)
    (hcommit : env.commitResult = Except.ok ()) :
    (handleSubmit env true defaults s).createCall =
      some (createDataOf defaults (groupByRoot s.overlay)) ∧
    (handleSubmit env true defaults s).session.view = some newView ∧
    (handleSubmit env true defaults s).session.overlay = [] ∧
    editingOf (wasCreatingEffect (isNewOf s)
      (handleSubmit env true defaults s).session) = true ∧
    (∀ k, alLookup (groupByRoot s.overlay) k = none →
      alLookup (createDataOf defaults (groupByRoot s.overlay)) k =
        alLookup (defaults.map (fun kv => (kv.1, DataVal.val kv.2))) k) ∧
    (∀ k v, alLookup (groupByRoot s.overlay) k = some v → isEmbedded v = false →
      alLookup (createDataOf defaults (groupByRoot s.overlay)) k =
        some (DataVal.val (normEmpty v))) ∧
    (∀ k oid fs, alLookup (groupByRoot s.overlay) k = some (vObj oid fs) →
      alLookup (createDataOf defaults (groupByRoot s.overlay)) k =
        some (DataVal.struct (normFieldsFresh fs))) := by
  refine ⟨?_, ?_, ?_, ?_, ?_, ?_, ?_⟩
  · simp [handleSubmit, hview, hcreate, hcommit]
  · simp [handleSubmit, hview, hcreate, hcommit]
  · simp [handleSubmit, hview, hcreate, hcommit]
  · have hsess : (handleSubmit env true defaults s).session.view = some newView := by
      simp [handleSubmit, hview, hcreate, hcommit]
    have hnew : isNewOf s = true := by simp [isNewOf, hview]
    have hmp : (handleSubmit env true defaults s).session.modeProp = s.modeProp := by
      simp [handleSubmit, hview, hcreate, hcommit]
    rw [hnew, wasCreatingEffect]
    simp only [isNewOf, hsess, Option.isNone_some, Bool.not_false, Bool.true_and, if_true]
    rw [editingOf, formModeOf]
    cases hm : s.modeProp with
    | none => simp [hmp, hm, hsess]
    | some m =>
        cases m with
        | r => exact absurd hm hmode
        | rw => simp [hmp, hm]
        | w => simp [hmp, hm]
  · intro k hk
    exact alSetFold_lookup_notin dataValOf _ _ k
      (not_has_of_alLookup_none _ k hk)
  · intro k v hv hemb
    rw [createDataOf, alSetFold_lookup_mem dataValOf _ _ k v
      (groupByRoot_keys_nodup s.overlay) hv]
    cases v <;> first | rfl | simp [isEmbedded] at hemb
  · intro k oid fs hv
    rw [createDataOf, alSetFold_lookup_mem dataValOf _ _ k (vObj oid fs)
      (groupByRoot_keys_nodup s.overlay) hv]
    rfl

/-- C7 witness: scenario E — the create call receives the name and the
empty email normalized to null, the new view is bound and editing stays
on. -/
theorem create_submit_spec_witness :
    (handleSubmit createEnv true [] createSession).createCall =
      some [("name", DataVal.val (vStr "Carl")), ("email", DataVal.val vNull)] ∧
    (handleSubmit createEnv true [] createSession).session.view = some (vObj 9 []) ∧
    editingOf (wasCreatingEffect (isNewOf createSession)
      (handleSubmit createEnv true [] createSession).session) = true := by
  have h := create_submit_spec createSession createEnv [] (vObj 9 [])
      rfl (by simp [createSession]) rfl rfl
  refine ⟨?_, h.2.1, h.2.2.2.1⟩
  rw [h.1]
  rfl

/-- C6 counterexample: a grouped embedded root on a mutation handle that
exposes only replace (no set function) produces zero mutations — it is
skipped with a diagnostic — refuting that exactly one mutation is applied
on every embedded root. -/
theorem embedded_submit_counterexample :
    alLookup (groupByRoot [("address.street1", vStr "2 Main")]) "address" =
      some (vObj 0 [("street1", vStr "2 Main")]) ∧
    (editActions (vObj 0 [("address", vObj 1 [("street1", vStr "1 Main"),
        ("city", vStr "X")])])
        (fun _ => { present := true, hasReplace := true, hasSet := false })
        (groupByRoot [("address.street1", vStr "2 Main")])).filter
      SubmitAction.isMutation = [] := by
  constructor
  · rfl
  · rfl

/-- C6 amended: in an edit-mode submit, every grouped root holding a nested
mapping whose handle field exposes a set function receives exactly one
mutation: a whole-structure set of the existing view object (or an empty
one when nullish) shallow-copied with each edited sub-field overlaid and
its empty strings normalized to null; sub-fields not in the overlay keep
their existing values; a root without a set function is skipped with a
diagnostic and no mutation. -/
theorem embedded_submit_spec (s : Session) (env : SubmitEnv)
    (hasModel : Bool) (defaults : List (String × JSValue)) (v : JSValue)
    (root : String) (oid : Nat) (subs : List (String × JSValue))
    (hview : s.view = some v)
    (hroot : alLookup (groupByRoot s.overlay) root = some (vObj oid subs))
    (hnd : (subs.map Prod.fst).Nodup)
    (hpresent : (env.caps root).present = true)
    (hset : (env.caps root).hasSet = true) :
    ((handleSubmit env hasModel defaults s).actions).filter (mutOn root) =
      [SubmitAction.applySetObj root (mergeEmbedded (getProp v root) subs)] ∧
    (∀ k, alHas subs k = false →
      alLookup (mergeEmbedded (getProp v root) subs) k =
        alLookup (spreadFields (getProp v root)) k) ∧
    (∀ k w, alLookup subs k = some w →
      alLookup (mergeEmbedded (getProp v root) subs) k = some (normEmpty w)) := by
  refine ⟨?_, ?_, ?_⟩
  · have hact : (handleSubmit env hasModel defaults s).actions =
        editActions v env.caps (groupByRoot s.overlay) := by
      cases hc : env.commitResult <;> simp [handleSubmit, hview, hc]
    rw [hact, editActions_filter_unique v env.caps _ root (vObj oid subs)
      (groupByRoot_keys_nodup s.overlay) hroot]
    simp [editActionsRoot, isEmbedded, objFields, hpresent, hset, mutOn,
      SubmitAction.isMutation, SubmitAction.rootName, List.filter_cons]
  · intro k hk
    exact alSetFold_lookup_notin normEmpty subs _ k
      (not_has_of_alLookup_none subs k (alLookup_eq_none subs k hk))
  · intro k w hw
    exact alSetFold_lookup_mem normEmpty subs _ k w hnd hw

/-- C6 witness: scenario C — editing only address.street1 issues one set
mutation on address whose merged value keeps the untouched city. -/
theorem embedded_submit_spec_witness :
    ((handleSubmit allCapsEnv false [] addrSession).actions).filter (mutOn "address") =
      [SubmitAction.applySetObj "address"
        [("street1", vStr "2 Main"), ("city", vStr "X")]] := by
  have h := embedded_submit_spec addrSession allCapsEnv false [] addrView "address" 0
      [("street1", vStr "2 Main")] rfl (by rfl) (by decide) rfl rfl
  rw [h.1]
  rfl
